import Mathlib

/-!
Verification of `cxrodgers/machine_learning`.

Shallow embedding of the pure computations of the repository:
* `cells_kitchen/region_proposal/utils.py` — frame sampling (`get_frames`),
  correlation images (`get_correlation_image`), label-mask generation
  (`get_targets`), contrast enhancement (`enhance_contrast`);
* `whisker_segmentation/models.py` — shape semantics of the three Keras
  model builders (`leap`, `hourglass`, `stacked_hourglass`);
* `cells_kitchen/region_proposal/train.py` — the EarlyStopping /
  ModelCheckpoint callback semantics and the end-of-run checkpoint cleanup.

Numeric arrays are embedded over `ℚ` (exact arithmetic standing for the
floating-point values of numpy), boolean masks over `Bool`, and shapes over
`ℕ`.  Fallible code returns `Option` / `Except`.
-/

namespace MachineLearning

/-! ### numpy percentile and `enhance_contrast` (utils.py lines 164-171)

`np.percentile(a, q)` sorts the flattened data and linearly interpolates at
fractional position `q / 100 * (n - 1)`.  We embed it for `0 ≤ q ≤ 100` on a
nonempty list; outside that range numpy raises, which no claim exercises. -/

/-- Insertion of an element into a sorted list of rationals. -/
def insertSorted (x : ℚ) : List ℚ → List ℚ
  | [] => [x]
  | y :: ys => if x ≤ y then x :: y :: ys else y :: insertSorted x ys

/-- Ascending sort of a list of rationals (the `np.sort` inside percentile). -/
def sortQ : List ℚ → List ℚ
  | [] => []
  | x :: xs => insertSorted x (sortQ xs)

/-- Value of the sorted list at integer position `i`, clamped like numpy's
interpolation endpoints (the last entry repeats past the end). -/
def atPos (xs : List ℚ) (i : ℕ) : ℚ :=
  xs.getD i (xs.getLastD 0)

/-- `np.percentile(a, q)`: linear interpolation between the order statistics
at fractional rank `q / 100 * (len a - 1)`. -/
def percentile (a : List ℚ) (q : ℚ) : ℚ :=
  let s := sortQ a
  let pos : ℚ := q / 100 * ((a.length : ℚ) - 1)
  let i : ℤ := ⌊pos⌋
  let frac : ℚ := pos - (i : ℚ)
  atPos s i.toNat + frac * (atPos s (i.toNat + 1) - atPos s i.toNat)

/-- `np.clip(v, lo, hi) = min (max v lo) hi` (applied elementwise). -/
def clip (v lo hi : ℚ) : ℚ := min (max v lo) hi

/-- `np.ptp` of the two percentile limits: max minus min. -/
def ptp2 (a b : ℚ) : ℚ := max a b - min a b

/-- `enhance_contrast(img, percentiles)` from utils.py: computes the two
percentile limits of the flattened image and maps
`v ↦ clip(v - limits[0], 0, limits[1] - limits[0]) / ptp(limits)`.
Division by zero (constant limits) is rational division by zero. -/
def enhance_contrast (img : List ℚ) (percentiles : ℚ × ℚ) : List ℚ :=
  let lim0 := percentile img percentiles.1
  let lim1 := percentile img percentiles.2
  img.map fun v => clip (v - lim0) 0 (lim1 - lim0) / ptp2 lim0 lim1

/-! ### Frame sampling in `get_frames` (utils.py lines 16-55) -/

/-- `np.linspace(start, stop, num)`: `num` evenly spaced samples, endpoint
included exactly.  With `num = 1` numpy returns just `[start]`. -/
def linspace (start stop : ℚ) (num : ℕ) : List ℚ :=
  if num = 0 then []
  else if num = 1 then [start]
  else (List.range num).map fun i : ℕ =>
    start + (stop - start) * (i : ℚ) / ((num : ℚ) - 1)

/-- The indices selected by `get_frames` when `frame_numbers` is an integer
`n` and the folder holds `k` files:
`np.floor(np.linspace(0, k - 1, n)).astype(int)`. -/
def get_frames_indices (k n : ℕ) : List ℤ :=
  (linspace 0 ((k : ℚ) - 1) n).map fun q => ⌊q⌋

/-- How `frame_numbers` may be passed to `get_frames`: `None`, a list of
indices, or an integer count.  (Negative list indices are not modelled.) -/
inductive FrameNumbers where
  | noss : FrameNumbers
  | list : List ℕ → FrameNumbers
  | count : ℕ → FrameNumbers

/-- The exceptions `get_frames` can raise in the embedded fragment:
the explicit `IOError` for an empty folder, numpy's `IndexError` for an
out-of-range fancy index, and tifffile's `ValueError('no files found')`
when `imread` is handed an empty file sequence. -/
inductive GetFramesErr where
  | ioError : GetFramesErr
  | indexError : GetFramesErr
  | valueError : GetFramesErr
deriving DecidableEq

/-- numpy fancy indexing `np.asarray(files)[idxs]`: selects the entry at
each index, failing (IndexError) when any index is out of range. -/
def selectIdx {α : Type} (files : List α) : List ℕ → Option (List α)
  | [] => some []
  | i :: rest =>
    match files.get? i, selectIdx files rest with
    | some a, some s => some (a :: s)
    | _, _ => none

/-- `tifffile.imread(load_files)`: raises `ValueError('no files found')`
on an empty file sequence; otherwise returns the loaded stack, modelled as
the list of selected entries (each entry stands for the image loaded from
that file). -/
def imreadList {α : Type} (sel : List α) : Except GetFramesErr (List α) :=
  if sel.isEmpty then .error .valueError else .ok sel

/-- `get_frames(folder, frame_numbers)`: `files` is the glob result.
Raises `IOError` when no files match, `IndexError` when an explicit index
is out of range, and `imread`'s `ValueError` when the selection is empty
(`frame_numbers = 0` or an empty index list). -/
def get_frames {α : Type} (files : List α) (frame_numbers : FrameNumbers) :
    Except GetFramesErr (List α) :=
  if files.length = 0 then .error .ioError
  else
    match frame_numbers with
    | .noss => imreadList files
    | .list idxs =>
        match selectIdx files idxs with
        | some sel => imreadList sel
        | none => .error .indexError
    | .count n =>
        match selectIdx files ((get_frames_indices files.length n).map
            Int.toNat) with
        | some sel => imreadList sel
        | none => .error .indexError

/-! ### Label-mask generation `get_targets` (utils.py lines 115-151)

A label folder declares image `dimensions` in `info.json` (the code keeps
entries 1 and 2: `d0, d1`) and a list of cells in `consensus_regions.json`,
each a list of `(row, col)` pixel coordinates. -/

/-- A 2D boolean mask of shape `(d0, d1)` built from a pixel predicate
(row-major, as numpy indexes `mask[row, col]`). -/
def mkImg (d0 d1 : ℕ) (f : ℕ → ℕ → Bool) : List (List Bool) :=
  (List.range d0).map fun r => (List.range d1).map fun c => f r c

/-- Soma mask of one cell: `masks_soma[i, cell[:, 0], cell[:, 1]] = True`. -/
def somaMask (d0 d1 : ℕ) (cell : List (ℕ × ℕ)) : List (List Bool) :=
  mkImg d0 d1 fun r c => decide ((r, c) ∈ cell)

/-- A labelled pixel whose 4-neighbourhood leaves the region (or the
image): the pixels `cv2.findContours` traces. -/
def isBoundaryPx (cell : List (ℕ × ℕ)) (p : ℕ × ℕ) : Bool :=
  decide (p ∈ cell) &&
  (decide ((p.1 + 1, p.2) ∉ cell) || decide ((p.1, p.2 + 1) ∉ cell) ||
   decide (p.1 = 0 ∨ (p.1 - 1, p.2) ∉ cell) ||
   decide (p.2 = 0 ∨ (p.1, p.2 - 1) ∉ cell))

/-- Border mask of one cell:
`cv2.drawContours(np.zeros(dimensions), contour, 0, 1, thickness)` — the
region-boundary pixels thickened to `thickness`, drawn on a fresh
`(d0, d1)` canvas.  cv2's polyline rasterization is abstracted as a
Chebyshev dilation of the boundary; every claim about this mask concerns
only the canvas shape. -/
def borderMask (d0 d1 : ℕ) (cell : List (ℕ × ℕ)) (thickness : ℕ) :
    List (List Bool) :=
  mkImg d0 d1 fun r c =>
    cell.any fun p => isBoundaryPx cell p &&
      decide (max r p.1 - min r p.1 ≤ thickness / 2 ∧
        max c p.2 - min c p.2 ≤ thickness / 2)

/-- `np.mean(cell, 0).astype('int')`: the mean coordinate truncated toward
zero; coordinates are non-negative, so this is the floor. -/
def cellCentroid (cell : List (ℕ × ℕ)) : ℤ × ℤ :=
  (⌊(cell.map fun p => (p.1 : ℚ)).sum / (cell.length : ℚ)⌋,
   ⌊(cell.map fun p => (p.2 : ℚ)).sum / (cell.length : ℚ)⌋)

/-- Centroid mask of one cell:
`cv2.circle(mask, (center[1], center[0]), centroid_radius, 1, thickness=-1)`
— the filled disc of the given radius around the centroid, clipped to the
canvas.  cv2's disc rasterization is abstracted as the Euclidean disc; it
always contains the centre pixel. -/
def centroidMask (d0 d1 : ℕ) (cell : List (ℕ × ℕ)) (radius : ℕ) :
    List (List Bool) :=
  mkImg d0 d1 fun r c =>
    decide (((r : ℤ) - (cellCentroid cell).1) ^ 2 +
      ((c : ℤ) - (cellCentroid cell).2) ^ 2 ≤ (radius : ℤ) ^ 2)

/-- Pointwise `or` of two masks (one step of `np.max` over a bool stack). -/
def imgOr (a b : List (List Bool)) : List (List Bool) :=
  List.zipWith (List.zipWith or) a b

/-- `np.max(stack, 0)` on a boolean stack (the `collapse_masks` branch);
numpy raises on an empty stack, which `get_targets` guards. -/
def collapseStack : List (List (List Bool)) → List (List Bool)
  | [] => []
  | m :: rest => rest.foldl imgOr m

/-- Result of `get_targets`: one mask per cell, or single collapsed masks
when `collapse_masks=True`. -/
inductive MaskOut where
  | stacks : List (List (List Bool)) → List (List (List Bool)) →
      List (List (List Bool)) → MaskOut
  | collapsed : List (List Bool) → List (List Bool) → List (List Bool) →
      MaskOut

/-- `get_targets(folder, collapse_masks, centroid_radius, border_thickness)`
on a folder declaring dimensions `(d0, d1)` and the given cells.  Returns
`none` when the Python code raises: an empty coordinate list or an
out-of-range coordinate raises IndexError inside the per-cell loop, and
`np.max` over a stack of zero cells raises ValueError. -/
def get_targets (d0 d1 : ℕ) (cells : List (List (ℕ × ℕ)))
    (collapse_masks : Bool) (centroid_radius border_thickness : ℕ) :
    Option MaskOut :=
  if cells.all (fun cell =>
      !cell.isEmpty && cell.all fun p => decide (p.1 < d0) && decide (p.2 < d1)) then
    let masks_soma := cells.map (somaMask d0 d1)
    let masks_border := cells.map fun c => borderMask d0 d1 c border_thickness
    let masks_centroids := cells.map fun c => centroidMask d0 d1 c centroid_radius
    if collapse_masks then
      if cells.isEmpty then none
      else some (MaskOut.collapsed (collapseStack masks_soma)
        (collapseStack masks_border) (collapseStack masks_centroids))
    else some (MaskOut.stacks masks_soma masks_border masks_centroids)
  else none

/-! ### Keras layer shape semantics (whisker_segmentation/models.py)

Tensors are tracked by their static shape `(height, width, channels)`; the
batch dimension is dropped, and a 2-tuple `img_size` is already extended by
the builders to `(h, w, 1)`, so shapes here are always 3D.  `Add` raises a
Keras shape mismatch unless both inputs agree, so builders containing `Add`
return `Option`.  Kernel sizes, activations, initializers, optimizer and
loss do not affect shapes and are not tracked. -/

/-- Static tensor shape: height, width, channels. -/
structure Shape where
  h : ℕ
  w : ℕ
  c : ℕ
deriving DecidableEq

/-- `Conv2D(filters, padding="same", strides=1)`. -/
def conv2d_same (filters : ℕ) (s : Shape) : Shape := ⟨s.h, s.w, filters⟩

/-- `MaxPooling2D(pool_size=2, strides=2, padding="same")`: ceil-halves the
spatial dimensions. -/
def maxPool2 (s : Shape) : Shape := ⟨(s.h + 1) / 2, (s.w + 1) / 2, s.c⟩

/-- `Conv2DTranspose(filters, kernel_size=3, strides=2, padding="same")`:
doubles the spatial dimensions. -/
def conv2dT2 (filters : ℕ) (s : Shape) : Shape := ⟨2 * s.h, 2 * s.w, filters⟩

/-- `UpSampling2D()`: doubles the spatial dimensions. -/
def upSampling2 (s : Shape) : Shape := ⟨2 * s.h, 2 * s.w, s.c⟩

/-- `Add()([a, b])`: Keras raises unless the two shapes agree. -/
def addLayer (a b : Shape) : Option Shape := if a = b then some a else none

/-- `residual_bottleneck_module(x_in, output_filters, bottleneck_factor)`:
three same-padding convs (the last with `output_filters` channels), a 1×1
skip conv when the channel counts differ, and a residual `Add`. -/
def residual_bottleneck_module (x_in : Shape) (output_filters : ℕ)
    (bottleneck_factor : ℕ) : Option Shape :=
  let bottleneck_filters := output_filters / bottleneck_factor
  let x := conv2d_same bottleneck_filters x_in
  let x := conv2d_same bottleneck_filters x
  let x := conv2d_same output_filters x
  let skip := if output_filters ≠ x_in.c
    then conv2d_same output_filters x_in else x_in
  addLayer skip x

/-- `leap(img_size, output_channels, filters)`: three conv blocks with two
pools, then two transposed convs back up; no `Add`, so construction always
succeeds and the output layer is `Conv2DTranspose(output_channels, ...)`. -/
def leap (img_size : Shape) (output_channels filters : ℕ) : Shape :=
  let x1 := conv2d_same filters img_size
  let x1 := conv2d_same filters x1
  let x1 := conv2d_same filters x1
  let x1_pool := maxPool2 x1
  let x2 := conv2d_same (filters * 2) x1_pool
  let x2 := conv2d_same (filters * 2) x2
  let x2 := conv2d_same (filters * 2) x2
  let x2_pool := maxPool2 x2
  let x3 := conv2d_same (filters * 4) x2_pool
  let x3 := conv2d_same (filters * 4) x3
  let x3 := conv2d_same (filters * 4) x3
  let x4 := conv2dT2 (filters * 2) x3
  let x4 := conv2d_same (filters * 2) x4
  let x4 := conv2d_same (filters * 2) x4
  conv2dT2 output_channels x4

/-- The hourglass body (`x1 … x9` of `hourglass`, textually duplicated as
`x1_1 … x1_9` and `x2_1 … x2_9` in `stacked_hourglass`): four pool stages,
a bottleneck, then four up-stages each followed by a skip `Add` with the
matching encoder stage. -/
def hourglassCore (x_in : Shape) (filters : ℕ) (upsampling_layers : Bool) :
    Option Shape := do
  let x1_pre ← residual_bottleneck_module x_in filters 2
  let x1 := maxPool2 x1_pre
  let x2_pre ← residual_bottleneck_module x1 filters 2
  let x2 := maxPool2 x2_pre
  let x3_pre ← residual_bottleneck_module x2 filters 2
  let x3 := maxPool2 x3_pre
  let x4_pre ← residual_bottleneck_module x3 filters 2
  let x4 := maxPool2 x4_pre
  let x5 ← residual_bottleneck_module x4 filters 2
  let x6_pre := if upsampling_layers then upSampling2 x5 else conv2dT2 filters x5
  let x6_add ← addLayer x4_pre x6_pre
  let x6 ← residual_bottleneck_module x6_add filters 2
  let x7_pre := if upsampling_layers then upSampling2 x6 else conv2dT2 filters x6
  let x7_add ← addLayer x3_pre x7_pre
  let x7 ← residual_bottleneck_module x7_add filters 2
  let x8_pre := if upsampling_layers then upSampling2 x7 else conv2dT2 filters x7
  let x8_add ← addLayer x2_pre x8_pre
  let x8 ← residual_bottleneck_module x8_add filters 2
  let x9_pre := if upsampling_layers then upSampling2 x8 else conv2dT2 filters x8
  let x9_add ← addLayer x1_pre x9_pre
  residual_bottleneck_module x9_add filters 2

/-- `hourglass(img_size, output_channels, filters)`: one hourglass body,
output `Conv2D(output_channels, kernel_size=3, strides=1, padding="same")`. -/
def hourglass (img_size : Shape) (output_channels filters : ℕ)
    (upsampling_layers : Bool) : Option Shape := do
  let x9 ← hourglassCore img_size filters upsampling_layers
  pure (conv2d_same output_channels x9)

/-- `stacked_hourglass(img_size, output_channels, filters)`: two chained
hourglass bodies with two supervised outputs `x_out1, x_out2`, each a
bottleneck module with `output_filters = output_channels` and
`bottleneck_factor = 1`. -/
def stacked_hourglass (img_size : Shape) (output_channels filters : ℕ)
    (upsampling_layers : Bool) : Option (List Shape) := do
  let x1_9 ← hourglassCore img_size filters upsampling_layers
  let x2_9 ← hourglassCore x1_9 filters upsampling_layers
  let x_out1 ← residual_bottleneck_module x1_9 output_channels 1
  let x_out2 ← residual_bottleneck_module x2_9 output_channels 1
  pure [x_out1, x_out2]

/-- A mask has shape `(d0, d1)`. -/
def imgShape (img : List (List Bool)) (d0 d1 : ℕ) : Prop :=
  img.length = d0 ∧ ∀ row ∈ img, row.length = d1

/-- A mask stack has shape `(n, d0, d1)`. -/
def stackShape (s : List (List (List Bool))) (n d0 d1 : ℕ) : Prop :=
  s.length = n ∧ ∀ img ∈ s, imgShape img d0 d1

/-! ### Training callbacks and checkpoint cleanup (train.py)

`train.py` fits with `EarlyStopping(patience=cfg.early_stopping)` and
`ModelCheckpoint(path % '%s.\x7bepoch:02d\x7d-\x7bval_loss:.6f\x7d.hdf5', save_best_only=True)`,
both monitoring `val_loss` in min mode with `min_delta = 0`, then deletes
`glob('*hdf5')[:-1]` and loads the single remaining checkpoint.  A training
run is represented by the list of per-epoch validation losses; `best`
starts at infinity, modelled as `Option ℚ` with `none = ∞`.  Checkpoint
files are represented by their `(epoch, val_loss)` name parts.
`savedCheckpoints` lists the files present after training in saving order;
the order in which `glob('*hdf5')` later returns them is `os.scandir`
order, filesystem-dependent and unspecified, so a possible glob listing is
any permutation of those files (`isGlobListing`). -/

/-- A new loss improves on the best seen so far (`np.less`, `min_delta=0`;
the initial best is infinity). -/
def improves (best : Option ℚ) (l : ℚ) : Bool :=
  match best with
  | none => true
  | some b => decide (l < b)

/-- One epoch of the EarlyStopping state `(best, wait)` (keras 2.x
`on_epoch_end`): an improvement resets `wait`, otherwise `wait`
increments. -/
def esStep (st : Option ℚ × ℕ) (l : ℚ) : Option ℚ × ℕ :=
  if improves st.1 l then (some l, 0) else (st.1, st.2 + 1)

/-- EarlyStopping state after the first `k` epochs, ignoring stopping. -/
def esState (losses : List ℚ) (k : ℕ) : Option ℚ × ℕ :=
  (losses.take k).foldl esStep (none, 0)

/-- The fit loop under EarlyStopping: epochs processed in order, stopping
at the end of an epoch whose non-improvement pushes `wait` up to
`patience` (keras 2.x checks `wait >= patience` inside the
non-improvement branch). -/
def esRun (patience : ℕ) : Option ℚ → ℕ → List ℚ → ℕ
  | _, _, [] => 0
  | best, wait, l :: rest =>
    if improves best l then 1 + esRun patience (some l) 0 rest
    else if patience ≤ wait + 1 then 1
    else 1 + esRun patience best (wait + 1) rest

/-- Number of epochs `model.fit_generator(..., epochs=cfg.training_epochs,
callbacks=[EarlyStopping(patience), ...])` actually runs, where `losses`
lists the validation loss each of the `cfg.training_epochs` epochs would
produce. -/
def epochsRun (losses : List ℚ) (patience : ℕ) : ℕ :=
  esRun patience none 0 losses

/-- `ModelCheckpoint(..., save_best_only=True)`: saves at end of each epoch
whose `val_loss` improves on the best seen.  `e` numbers the epochs. -/
def saveLoop (best : Option ℚ) (e : ℕ) : List ℚ → List (ℕ × ℚ)
  | [] => []
  | l :: rest =>
    if improves best l then (e, l) :: saveLoop (some l) (e + 1) rest
    else saveLoop best (e + 1) rest

/-- The checkpoint files present after training, in saving order, given
the validation losses of the epochs that ran. -/
def savedCheckpoints (losses : List ℚ) : List (ℕ × ℚ) :=
  saveLoop none 0 losses

/-- `models_to_delete = glob(os.path.join(model_path, '*hdf5'))[:-1]`. -/
def models_to_delete (files : List (ℕ × ℚ)) : List (ℕ × ℚ) :=
  files.dropLast

/-- The files left in the model folder after
`[os.remove(mod) for mod in iter(models_to_delete)]`. -/
def remainingCheckpoints (files : List (ℕ × ℚ)) : List (ℕ × ℚ) :=
  files.drop (files.length - 1)

/-- `glob(os.path.join(model_path, '*hdf5'))` returns its matches in
`os.scandir` order, which is filesystem-dependent and carries no ordering
guarantee: a possible glob listing is any permutation of the checkpoint
files present. -/
def isGlobListing (losses : List ℚ) (listing : List (ℕ × ℚ)) : Prop :=
  listing.Perm (savedCheckpoints losses)

/-! ### `get_correlation_image` (utils.py lines 80-104)

numpy arrays are mutable buffers passed by reference: `imgs -= ...` and
`imgs /= ...` write in place, while `imgs.copy()` allocates a fresh buffer.
The arrays reachable during the call form a heap of stacks addressed by
indices.  `np.std` takes a real square root, abstracted as the parameter
`sqrtFn`. -/

/-- A 2D frame of rationals. -/
abbrev QImg : Type := List (List ℚ)

/-- A stack of frames (`imgs`, axis 0 = time). -/
abbrev QStack : Type := List QImg

/-- The mutable numpy buffers reachable from the call, by reference. -/
abbrev Heap : Type := List QStack

/-- Dereference an array. -/
def heapGet (h : Heap) (r : ℕ) : QStack := h.getD r []

/-- In-place write to an array. -/
def heapSet (h : Heap) (r : ℕ) (v : QStack) : Heap := h.set r v

/-- Allocate a fresh array (`imgs.copy()`), returning its reference. -/
def heapAlloc (h : Heap) (v : QStack) : Heap × ℕ := (h ++ [v], h.length)

/-- Pointwise combination of two frames. -/
def imgZip (f : ℚ → ℚ → ℚ) (a b : QImg) : QImg :=
  List.zipWith (List.zipWith f) a b

/-- Pointwise map over a frame. -/
def imgMap (f : ℚ → ℚ) (a : QImg) : QImg := a.map (List.map f)

/-- Pointwise sum over the frames of a stack. -/
def stackSum : QStack → QImg
  | [] => []
  | f :: rest => rest.foldl (imgZip (· + ·)) f

/-- `np.mean(imgs, axis=0)`. -/
def stackMean (s : QStack) : QImg :=
  imgMap (fun x => x / (s.length : ℚ)) (stackSum s)

/-- `imgs -= np.mean(imgs, axis=0)` (the value written back in place). -/
def stackCenter (s : QStack) : QStack :=
  s.map fun f => imgZip (· - ·) f (stackMean s)

/-- `np.std(imgs, axis=0)`: square root of the mean squared deviation,
with the square root abstracted. -/
def stackStd (sqrtFn : ℚ → ℚ) (s : QStack) : QImg :=
  imgMap sqrtFn (stackMean (s.map fun f =>
    imgZip (· * ·) (imgZip (· - ·) f (stackMean s))
      (imgZip (· - ·) f (stackMean s))))

/-- `imgs_std[imgs_std == 0] = np.inf; imgs /= imgs_std`: the value written
back by the in-place division — zero-std pixels give `x / ∞ = 0`. -/
def stackDivStd (s : QStack) (std : QImg) : QStack :=
  s.map fun f => imgZip (fun x st => if st = 0 then 0 else x / st) f std

/-- Pixel of a frame at integer coordinates, 0 outside
(`mode='constant'`). -/
def atPix (img : QImg) (r c : ℤ) : ℚ :=
  if 0 ≤ r ∧ r < (img.length : ℤ) then
    let row := img.getD r.toNat []
    if 0 ≤ c ∧ c < (row.length : ℤ) then row.getD c.toNat 0 else 0
  else 0

/-- The eight neighbour offsets of the 3×3 ones kernel with zero centre. -/
def nbrOffsets : List (ℤ × ℤ) :=
  [(-1, -1), (-1, 0), (-1, 1), (0, -1), (0, 1), (1, -1), (1, 0), (1, 1)]

/-- `scipy.ndimage.convolve(img, kernel, mode='constant')` with the
8-neighbour kernel: each pixel becomes the sum of its eight neighbours. -/
def conv8 (img : QImg) : QImg :=
  (List.range img.length).map fun r =>
    (List.range ((img.getD r []).length)).map fun c =>
      (nbrOffsets.map fun o => atPix img ((r : ℤ) + o.1) ((c : ℤ) + o.2)).sum

/-- An all-ones frame of the given shape. -/
def onesImg (n m : ℕ) : QImg :=
  (List.range n).map fun _ => (List.range m).map fun _ => (1 : ℚ)

/-- Frame shape of a stack: rows and columns of its first frame
(`imgs.shape[1:]`). -/
def frameShape (s : QStack) : ℕ × ℕ :=
  ((s.getD 0 []).length, ((s.getD 0 []).getD 0 []).length)

/-- `get_correlation_image(imgs)` as a heap program: takes the heap and the
reference to the caller's stack, returns the final heap and the computed
correlation image.  Statement by statement: `imgs = imgs.copy()` allocates;
the neighbour-count `mask` is a fresh pure array; `imgs -= mean` and
`imgs /= std` write the copy in place; `img_corr` is rebuilt by pure ops
(`convolve` and `*` return fresh arrays) and averaged over frames. -/
def get_correlation_image (sqrtFn : ℚ → ℚ) (h0 : Heap) (imgsRef : ℕ) :
    Heap × QImg :=
  let alloc := heapAlloc h0 (heapGet h0 imgsRef)
  let h1 := alloc.1
  let imgs := alloc.2
  let sh := frameShape (heapGet h1 imgs)
  let mask := conv8 (onesImg sh.1 sh.2)
  let h2 := heapSet h1 imgs (stackCenter (heapGet h1 imgs))
  let imgs_std := stackStd sqrtFn (heapGet h2 imgs)
  let h3 := heapSet h2 imgs (stackDivStd (heapGet h2 imgs) imgs_std)
  let img_corr := (heapGet h3 imgs).map fun f => imgZip (· / ·) (conv8 f) mask
  let img_corr2 := List.zipWith (imgZip (· * ·)) (heapGet h3 imgs) img_corr
  (h3, stackMean img_corr2)

/-! ## Theorems -/

/-- In-range index lists always select successfully, one entry per
index. -/
theorem selectIdx_of_bounds {α : Type} (files : List α) :
    ∀ l : List ℕ, (∀ i ∈ l, i < files.length) →
      ∃ sel, selectIdx files l = some sel ∧ sel.length = l.length
  | [], _ => ⟨[], rfl, rfl⟩
  | i :: l, h => by
    have hi : i < files.length := h i (List.mem_cons_self i l)
    obtain ⟨sel, hsel, hlen⟩ := selectIdx_of_bounds files l
      (fun x hx => h x (List.mem_cons_of_mem i hx))
    refine ⟨files.get ⟨i, hi⟩ :: sel, ?_, ?_⟩
    · simp [selectIdx, hsel, List.getElem?_eq_getElem hi]
    · simp [hlen]

/-- `get_frames` always computes exactly `n` sampling indices. -/
theorem get_frames_indices_length (k n : ℕ) :
    (get_frames_indices k n).length = n := by
  unfold get_frames_indices linspace
  by_cases h0 : n = 0
  · subst h0
    rfl
  by_cases h1 : n = 1
  · subst h1
    rfl
  · rw [if_neg h0, if_neg h1]
    simp

/-- `imreadList` never raises the empty-folder `IOError`. -/
theorem imreadList_ne_ioError {α : Type} (sel : List α) :
    imreadList sel ≠ Except.error GetFramesErr.ioError := by
  unfold imreadList
  split <;> simp

/-- `imreadList` succeeds on a non-empty selection. -/
theorem imreadList_ok {α : Type} (sel : List α) (h : sel ≠ []) :
    imreadList sel = Except.ok sel := by
  unfold imreadList
  rw [if_neg]
  simpa [List.isEmpty_iff] using h

/-- Closed form of `get_frames_indices` when `n ≥ 2`. -/
theorem get_frames_indices_repr (k n : ℕ) (h0 : n ≠ 0) (h1 : n ≠ 1) :
    get_frames_indices k n = (List.range n).map
      (fun i : ℕ => ⌊((k : ℚ) - 1) * (i : ℚ) / ((n : ℚ) - 1)⌋) := by
  unfold get_frames_indices linspace
  rw [if_neg h0, if_neg h1, List.map_map]
  apply List.map_congr_left
  intro i _
  simp only [Function.comp]
  congr 1
  ring

/-- Bounds on the evenly spaced indices: each lies in `[0, k - 1]`. -/
theorem get_frames_indices_bounds (k n : ℕ) (hk : 1 ≤ k) :
    ∀ i ∈ get_frames_indices k n, 0 ≤ i ∧ i ≤ (k : ℤ) - 1 := by
  intro i hi
  have hk1 : (1 : ℚ) ≤ (k : ℚ) := by exact_mod_cast hk
  by_cases h0 : n = 0
  · subst h0
    simp [get_frames_indices, linspace] at hi
  by_cases h1 : n = 1
  · subst h1
    have hrepr1 : get_frames_indices k 1 = [0] := by
      unfold get_frames_indices linspace
      norm_num
    rw [hrepr1, List.mem_singleton] at hi
    subst hi
    exact ⟨le_refl 0, by omega⟩
  · rw [get_frames_indices_repr k n h0 h1] at hi
    rw [List.mem_map] at hi
    obtain ⟨j, hj, rfl⟩ := hi
    rw [List.mem_range] at hj
    have hn2 : 2 ≤ n := by omega
    have hden : (0 : ℚ) < (n : ℚ) - 1 := by
      have : (2 : ℚ) ≤ (n : ℚ) := by exact_mod_cast hn2
      linarith
    have hval0 : (0 : ℚ) ≤ ((k : ℚ) - 1) * (j : ℚ) / ((n : ℚ) - 1) := by
      have : (0 : ℚ) ≤ (k : ℚ) - 1 := by linarith
      positivity
    have hvalk : ((k : ℚ) - 1) * (j : ℚ) / ((n : ℚ) - 1) ≤ (k : ℚ) - 1 := by
      rw [div_le_iff₀ hden]
      have hjn : (j : ℚ) ≤ (n : ℚ) - 1 := by
        have : (j : ℚ) + 1 ≤ (n : ℚ) := by exact_mod_cast hj
        linarith
      nlinarith
    refine ⟨Int.floor_nonneg.mpr hval0, ?_⟩
    calc ⌊((k : ℚ) - 1) * (j : ℚ) / ((n : ℚ) - 1)⌋
        ≤ ⌊(k : ℚ) - 1⌋ := Int.floor_mono hvalk
      _ = (k : ℤ) - 1 := by
          rw [show ((k : ℚ) - 1) = (((k : ℤ) - 1 : ℤ) : ℚ) by push_cast; ring,
            Int.floor_intCast]

/-- C8 counterexample: with `k = 2` files and `frame_numbers = 1`,
`get_frames` selects only index 0; the last file index `k - 1 = 1` is not
selected, contrary to the claim that the last selected index is `k - 1`. -/
theorem get_frames_indices_n1_counterexample :
    get_frames_indices 2 1 = [0] ∧ ((2 : ℤ) - 1) ∉ get_frames_indices 2 1 := by
  constructor
  · rfl
  · intro h
    rw [show get_frames_indices 2 1 = [0] from rfl] at h
    simp at h

/-- C8 (amended): for `k ≥ 1` files and `n ≥ 2` requested frames,
`get_frames` selects exactly `n` indices `⌊i·(k-1)/(n-1)⌋`; the first is 0,
the last is `k - 1`, and the indices are non-decreasing. -/
theorem get_frames_indices_spec (k n : ℕ) (hk : 1 ≤ k) (hn : 2 ≤ n) :
    (get_frames_indices k n).length = n ∧
    (get_frames_indices k n).head? = some 0 ∧
    (get_frames_indices k n).getLast? = some ((k : ℤ) - 1) ∧
    (∀ i, i < n → (get_frames_indices k n).get? i =
      some ⌊((k : ℚ) - 1) * (i : ℚ) / ((n : ℚ) - 1)⌋) ∧
    (get_frames_indices k n).Pairwise (· ≤ ·) := by
  have h0 : n ≠ 0 := by omega
  have h1 : n ≠ 1 := by omega
  have hden : (0 : ℚ) < (n : ℚ) - 1 := by
    have : (2 : ℚ) ≤ (n : ℚ) := by exact_mod_cast hn
    linarith
  have hknum : (0 : ℚ) ≤ (k : ℚ) - 1 := by
    have : (1 : ℚ) ≤ (k : ℚ) := by exact_mod_cast hk
    linarith
  have hrepr := get_frames_indices_repr k n h0 h1
  have hget : ∀ i, i < n → (get_frames_indices k n).get? i =
      some ⌊((k : ℚ) - 1) * (i : ℚ) / ((n : ℚ) - 1)⌋ := by
    intro i hi
    rw [hrepr, List.get?_map, List.get?_range hi]
    rfl
  refine ⟨by rw [hrepr]; simp, ?_, ?_, hget, ?_⟩
  · rw [← List.get?_zero, hget 0 (by omega)]
    norm_num
  · have hlen : (get_frames_indices k n).length = n := by rw [hrepr]; simp
    rw [List.getLast?_eq_get?, hlen, hget (n - 1) (by omega)]
    congr 1
    have hne : ((n : ℚ) - 1) ≠ 0 := ne_of_gt hden
    have hcast : ((n - 1 : ℕ) : ℚ) = (n : ℚ) - 1 := by
      have h1n : 1 ≤ n := by omega
      push_cast [h1n]
      ring
    rw [hcast, mul_div_assoc, div_self hne, mul_one]
    rw [show ((k : ℚ) - 1) = (((k : ℤ) - 1 : ℤ) : ℚ) by push_cast; ring,
      Int.floor_intCast]
  · rw [hrepr]
    refine (List.pairwise_lt_range n).map _ ?_
    intro a b hab
    apply Int.floor_mono
    have hcast : (a : ℚ) ≤ (b : ℚ) := by exact_mod_cast le_of_lt hab
    gcongr

/-- C8 witness: the amended claim evaluated at `k = 5` files, `n = 3`. -/
theorem get_frames_indices_spec_witness :
    (1 ≤ 5 ∧ 2 ≤ 3) ∧
    ((get_frames_indices 5 3).length = 3 ∧
     (get_frames_indices 5 3).head? = some 0 ∧
     (get_frames_indices 5 3).getLast? = some ((5 : ℤ) - 1) ∧
     (∀ i, i < 3 → (get_frames_indices 5 3).get? i =
       some ⌊((5 : ℚ) - 1) * (i : ℚ) / ((3 : ℚ) - 1)⌋) ∧
     (get_frames_indices 5 3).Pairwise (· ≤ ·)) :=
  ⟨⟨by decide, by decide⟩, get_frames_indices_spec 5 3 (by decide) (by decide)⟩

/-- C9 counterexample: one `.tif` file is present, yet an out-of-range
explicit frame list makes `get_frames` raise (IndexError), refuting
"when at least one .tif file is present it does not raise". -/
theorem get_frames_raises_despite_files_counterexample :
    get_frames ["a"] (FrameNumbers.list [1]) =
      Except.error GetFramesErr.indexError := rfl

/-- C9 (amended): `get_frames` raises `IOError` iff the folder has no
`.tif` files; with at least one file it succeeds for `frame_numbers =
None`, for any non-empty in-range index list, and for any integer count
`n ≥ 1`, while `frame_numbers = 0` selects no files and `tifffile.imread`
raises `ValueError`. -/
theorem get_frames_error_spec {α : Type} (files : List α) (fn : FrameNumbers) :
    (get_frames files fn = Except.error GetFramesErr.ioError ↔ files = []) ∧
    (files ≠ [] →
      (∃ s, get_frames files FrameNumbers.noss = Except.ok s) ∧
      (∀ idxs, idxs ≠ [] → (∀ i ∈ idxs, i < files.length) →
        ∃ s, get_frames files (FrameNumbers.list idxs) = Except.ok s) ∧
      (∀ n, 1 ≤ n →
        ∃ s, get_frames files (FrameNumbers.count n) = Except.ok s) ∧
      get_frames files (FrameNumbers.count 0) =
        Except.error GetFramesErr.valueError) := by
  constructor
  · constructor
    · intro h
      by_contra hne
      have hlen : ¬ files.length = 0 := by
        simpa [List.length_eq_zero] using hne
      unfold get_frames at h
      rw [if_neg hlen] at h
      cases fn with
      | noss => exact imreadList_ne_ioError files h
      | list idxs =>
          revert h
          cases hsel : selectIdx files idxs with
          | none => simp [hsel]
          | some sel =>
              simp only [hsel]
              exact fun hc => imreadList_ne_ioError sel hc
      | count n =>
          revert h
          cases hsel : selectIdx files
              ((get_frames_indices files.length n).map Int.toNat) with
          | none => simp [hsel]
          | some sel =>
              simp only [hsel]
              exact fun hc => imreadList_ne_ioError sel hc
    · intro h
      subst h
      rfl
  · intro hne
    have hlen : ¬ files.length = 0 := by
      simpa [List.length_eq_zero] using hne
    refine ⟨?_, ?_, ?_, ?_⟩
    · refine ⟨files, ?_⟩
      unfold get_frames
      rw [if_neg hlen]
      exact imreadList_ok files hne
    · intro idxs hne0 hidx
      obtain ⟨sel, hsel, hslen⟩ := selectIdx_of_bounds files idxs hidx
      have hselne : sel ≠ [] := by
        intro hc
        subst hc
        exact hne0 (List.length_eq_zero.mp hslen.symm)
      refine ⟨sel, ?_⟩
      unfold get_frames
      rw [if_neg hlen]
      simp only [hsel]
      exact imreadList_ok sel hselne
    · intro n hn1
      have hk : 1 ≤ files.length := by omega
      have hbnd : ∀ i ∈ (get_frames_indices files.length n).map Int.toNat,
          i < files.length := by
        intro i hi
        rw [List.mem_map] at hi
        obtain ⟨z, hz, rfl⟩ := hi
        obtain ⟨hz0, hzk⟩ := get_frames_indices_bounds files.length n hk z hz
        omega
      obtain ⟨sel, hsel, hslen⟩ := selectIdx_of_bounds files _ hbnd
      have hselne : sel ≠ [] := by
        intro hc
        subst hc
        rw [List.length_nil, List.length_map, get_frames_indices_length]
          at hslen
        omega
      refine ⟨sel, ?_⟩
      unfold get_frames
      rw [if_neg hlen]
      simp only [hsel]
      exact imreadList_ok sel hselne
    · unfold get_frames
      rw [if_neg hlen]
      rfl

/-- C9 witness: the amended claim evaluated on a two-file folder. -/
theorem get_frames_error_spec_witness :
    ((["a", "b"] : List String) ≠ [] ∧ 1 ≤ 2) ∧
    (∃ s, get_frames (["a", "b"] : List String) (FrameNumbers.count 2) =
      Except.ok s) := by
  have h := (get_frames_error_spec (["a", "b"] : List String)
    FrameNumbers.noss).2 (by simp)
  exact ⟨⟨by simp, by norm_num⟩, h.2.2.1 2 (by norm_num)⟩

/-- C3 counterexample: with the finite percentile pair `(95, 5)` (given in
decreasing order) on the image `[0, 100]`, every output value of
`enhance_contrast` is `-1`, outside `[0, 1]`. -/
theorem enhance_contrast_reversed_percentiles_counterexample :
    enhance_contrast [0, 100] (95, 5) = [-1, -1] ∧
    ¬ ∀ v ∈ enhance_contrast [0, 100] (95, 5), 0 ≤ v ∧ v ≤ 1 := by
  have hval : enhance_contrast [0, 100] (95, 5) = [-1, -1] := by
    norm_num [enhance_contrast, percentile, sortQ, insertSorted, atPos, clip,
      ptp2, Int.floor_eq_iff]
  refine ⟨hval, fun h => ?_⟩
  have hmem : (-1 : ℚ) ∈ enhance_contrast [0, 100] (95, 5) := by
    rw [hval]
    simp
  exact absurd (h (-1) hmem).1 (by norm_num)

/-- C3 (amended): whenever the computed lower percentile limit is strictly
below the upper limit (in particular for any increasing percentile pair on
a non-constant image), every output value of `enhance_contrast` lies in
`[0, 1]`. -/
theorem enhance_contrast_unit_interval (img : List ℚ) (p : ℚ × ℚ)
    (h : percentile img p.1 < percentile img p.2) :
    ∀ v ∈ enhance_contrast img p, 0 ≤ v ∧ v ≤ 1 := by
  intro v hv
  unfold enhance_contrast at hv
  rw [List.mem_map] at hv
  obtain ⟨x, hx, rfl⟩ := hv
  set l0 := percentile img p.1 with hl0
  set l1 := percentile img p.2 with hl1
  have hpos : (0 : ℚ) < l1 - l0 := by linarith
  have hptp : ptp2 l0 l1 = l1 - l0 := by
    unfold ptp2
    rw [max_eq_right (le_of_lt h), min_eq_left (le_of_lt h)]
  rw [hptp]
  unfold clip
  constructor
  · apply div_nonneg _ (le_of_lt hpos)
    exact le_min (le_max_right _ _) (le_of_lt hpos)
  · rw [div_le_one hpos]
    exact min_le_right _ _

/-- C3 witness: the amended claim evaluated at image `[0, 100]` with the
increasing percentile pair `(5, 95)`. -/
theorem enhance_contrast_unit_interval_witness :
    percentile [0, 100] 5 < percentile [0, 100] 95 ∧
    ∀ v ∈ enhance_contrast [0, 100] (5, 95), 0 ≤ v ∧ v ≤ 1 :=
  ⟨by norm_num [percentile, sortQ, insertSorted, atPos, Int.floor_eq_iff],
   enhance_contrast_unit_interval [0, 100] (5, 95)
     (by norm_num [percentile, sortQ, insertSorted, atPos, Int.floor_eq_iff])⟩

/-- `mkImg` always has the requested shape. -/
theorem mkImg_shape (d0 d1 : ℕ) (f : ℕ → ℕ → Bool) :
    imgShape (mkImg d0 d1 f) d0 d1 := by
  constructor
  · simp [mkImg]
  · intro row hrow
    simp only [mkImg, List.mem_map] at hrow
    obtain ⟨r, hr, hrow'⟩ := hrow
    subst hrow'
    simp

/-- Rows of a pointwise `imgOr` keep their width. -/
theorem imgOr_rows_shape :
    ∀ (a b : List (List Bool)) (d1 : ℕ),
      (∀ r ∈ a, r.length = d1) → (∀ r ∈ b, r.length = d1) →
      ∀ r ∈ imgOr a b, r.length = d1
  | [], _, _, _, _ => by simp [imgOr]
  | _ :: _, [], _, _, _ => by simp [imgOr]
  | x :: xs, y :: ys, d1, ha, hb => by
    intro r hr
    simp only [imgOr, List.zipWith_cons_cons, List.mem_cons] at hr
    rcases hr with rfl | hr
    · rw [List.length_zipWith, ha x (by simp), hb y (by simp)]
      simp
    · exact imgOr_rows_shape xs ys d1 (fun q hq => ha q (by simp [hq]))
        (fun q hq => hb q (by simp [hq])) r hr

/-- `imgOr` preserves the mask shape. -/
theorem imgOr_shape (a b : List (List Bool)) (d0 d1 : ℕ)
    (ha : imgShape a d0 d1) (hb : imgShape b d0 d1) :
    imgShape (imgOr a b) d0 d1 := by
  refine ⟨?_, imgOr_rows_shape a b d1 ha.2 hb.2⟩
  rw [imgOr, List.length_zipWith, ha.1, hb.1, min_self]

/-- Folding `imgOr` over same-shape masks preserves the shape. -/
theorem foldl_imgOr_shape (d0 d1 : ℕ) :
    ∀ (rest : List (List (List Bool))) (acc : List (List Bool)),
      imgShape acc d0 d1 → (∀ m ∈ rest, imgShape m d0 d1) →
      imgShape (rest.foldl imgOr acc) d0 d1
  | [], _, hacc, _ => hacc
  | m :: rest, acc, hacc, hrest => by
    exact foldl_imgOr_shape d0 d1 rest (imgOr acc m)
      (imgOr_shape acc m d0 d1 hacc (hrest m (by simp)))
      (fun x hx => hrest x (by simp [hx]))

/-- `collapseStack` of a non-empty same-shape stack has the mask shape. -/
theorem collapseStack_shape (s : List (List (List Bool))) (n d0 d1 : ℕ)
    (hs : stackShape s n d0 d1) (hne : s ≠ []) :
    imgShape (collapseStack s) d0 d1 := by
  cases s with
  | nil => exact absurd rfl hne
  | cons m rest =>
      exact foldl_imgOr_shape d0 d1 rest m (hs.2 m (by simp))
        (fun x hx => hs.2 x (by simp [hx]))

/-- A per-cell map of same-shape masks forms a stack of the right shape. -/
theorem stackShape_map {γ : Type} (cells : List γ)
    (g : γ → List (List Bool)) (d0 d1 : ℕ)
    (hg : ∀ cell, imgShape (g cell) d0 d1) :
    stackShape (cells.map g) cells.length d0 d1 := by
  refine ⟨by simp, ?_⟩
  intro img hmem
  rw [List.mem_map] at hmem
  obtain ⟨cell, _, rfl⟩ := hmem
  exact hg cell

/-- C1: whenever `get_targets` returns, the soma, border and centroid masks
are stacks of shape `(number of cells, d0, d1)`, or single `(d0, d1)` masks
when `collapse_masks=True`. -/
theorem get_targets_shapes (d0 d1 : ℕ) (cells : List (List (ℕ × ℕ)))
    (collapse_masks : Bool) (cr bt : ℕ) (mo : MaskOut)
    (h : get_targets d0 d1 cells collapse_masks cr bt = some mo) :
    (match mo with
     | MaskOut.stacks s b c => stackShape s cells.length d0 d1 ∧
         stackShape b cells.length d0 d1 ∧ stackShape c cells.length d0 d1
     | MaskOut.collapsed s b c => imgShape s d0 d1 ∧ imgShape b d0 d1 ∧
         imgShape c d0 d1) := by
  have hsoma := stackShape_map cells (somaMask d0 d1) d0 d1
    (fun cell => mkImg_shape d0 d1 _)
  have hborder := stackShape_map cells (fun c => borderMask d0 d1 c bt) d0 d1
    (fun cell => mkImg_shape d0 d1 _)
  have hcent := stackShape_map cells (fun c => centroidMask d0 d1 c cr) d0 d1
    (fun cell => mkImg_shape d0 d1 _)
  simp only [get_targets] at h
  by_cases hg : (cells.all fun cell =>
      !cell.isEmpty && cell.all fun p =>
        decide (p.1 < d0) && decide (p.2 < d1)) = true
  case neg => rw [if_neg hg] at h; exact absurd h (by simp)
  rw [if_pos hg] at h
  cases collapse_masks with
  | false =>
      rw [if_neg (by simp)] at h
      obtain rfl : MaskOut.stacks _ _ _ = mo := Option.some_injective _ h
      exact ⟨hsoma, hborder, hcent⟩
  | true =>
      rw [if_pos rfl] at h
      by_cases hne : cells.isEmpty = true
      case pos => rw [if_pos hne] at h; exact absurd h (by simp)
      rw [if_neg hne] at h
      obtain rfl : MaskOut.collapsed _ _ _ = mo := Option.some_injective _ h
      have hnil : cells ≠ [] := by
        intro hcon
        subst hcon
        exact hne rfl
      have hmapne : ∀ g : List (ℕ × ℕ) → List (List Bool),
          cells.map g ≠ [] := by
        intro g hcon
        exact hnil (List.map_eq_nil.mp hcon)
      exact ⟨collapseStack_shape _ cells.length d0 d1 hsoma (hmapne _),
        collapseStack_shape _ cells.length d0 d1 hborder (hmapne _),
        collapseStack_shape _ cells.length d0 d1 hcent (hmapne _)⟩

/-- C1 witness: a 2×2 folder with one single-pixel cell, uncollapsed. -/
theorem get_targets_shapes_witness :
    ∃ mo, get_targets 2 2 [[(0, 0)]] false 2 2 = some mo ∧
      (match mo with
       | MaskOut.stacks s b c => stackShape s 1 2 2 ∧
           stackShape b 1 2 2 ∧ stackShape c 1 2 2
       | MaskOut.collapsed s b c => imgShape s 2 2 ∧ imgShape b 2 2 ∧
           imgShape c 2 2) := by
  have heq : get_targets 2 2 [[(0, 0)]] false 2 2 =
      some (MaskOut.stacks ([[(0, 0)]].map (somaMask 2 2))
        ([[(0, 0)]].map fun c => borderMask 2 2 c 2)
        ([[(0, 0)]].map fun c => centroidMask 2 2 c 2)) := by
    unfold get_targets
    rw [if_pos (by decide)]
    rfl
  exact ⟨_, heq, get_targets_shapes 2 2 [[(0, 0)]] false 2 2 _ heq⟩

/-- Floor of the mean of naturals all below `d` lies in `[0, d)`. -/
theorem floor_mean_bounds (xs : List ℕ) (d : ℕ) (hne : xs ≠ [])
    (hb : ∀ x ∈ xs, x < d) :
    0 ≤ ⌊((xs.map fun x : ℕ => (x : ℚ)).sum / (xs.length : ℚ))⌋ ∧
    ⌊((xs.map fun x : ℕ => (x : ℚ)).sum / (xs.length : ℚ))⌋ < (d : ℤ) := by
  have hlen : 0 < xs.length := List.length_pos.mpr hne
  have hlenQ : (0 : ℚ) < (xs.length : ℚ) := by exact_mod_cast hlen
  have hsum0 : (0 : ℚ) ≤ (xs.map fun x : ℕ => (x : ℚ)).sum := by
    apply List.sum_nonneg
    intro x hx
    rw [List.mem_map] at hx
    obtain ⟨y, _, rfl⟩ := hx
    positivity
  have hub : (xs.map fun x : ℕ => (x : ℚ)).sum ≤
      (xs.length : ℚ) * ((d : ℚ) - 1) := by
    have hball : ∀ x ∈ (xs.map fun x : ℕ => (x : ℚ)), x ≤ (d : ℚ) - 1 := by
      intro x hx
      rw [List.mem_map] at hx
      obtain ⟨y, hy, rfl⟩ := hx
      have hyd : y + 1 ≤ d := hb y hy
      have hydQ : (y : ℚ) + 1 ≤ (d : ℚ) := by exact_mod_cast hyd
      linarith
    have hstep := List.sum_le_card_nsmul
      (xs.map fun x : ℕ => (x : ℚ)) ((d : ℚ) - 1) hball
    rw [List.length_map, nsmul_eq_mul] at hstep
    exact hstep
  refine ⟨Int.floor_nonneg.mpr (by positivity), ?_⟩
  have hmean : (xs.map fun x : ℕ => (x : ℚ)).sum / (xs.length : ℚ) ≤
      (d : ℚ) - 1 := by
    rw [div_le_iff₀ hlenQ]
    linarith [hub]
  calc ⌊((xs.map fun x : ℕ => (x : ℚ)).sum / (xs.length : ℚ))⌋
      ≤ ⌊(d : ℚ) - 1⌋ := Int.floor_mono hmean
    _ = (d : ℤ) - 1 := by
        rw [show ((d : ℚ) - 1) = (((d : ℤ) - 1 : ℤ) : ℚ) by push_cast; ring,
          Int.floor_intCast]
    _ < (d : ℤ) := by omega

/-- Reading a pixel of `mkImg` inside the canvas gives the predicate. -/
theorem mkImg_getD (d0 d1 : ℕ) (f : ℕ → ℕ → Bool) (r c : ℕ)
    (hr : r < d0) (hc : c < d1) :
    ((mkImg d0 d1 f).getD r []).getD c false = f r c := by
  have hrow : (mkImg d0 d1 f).getD r [] =
      (List.range d1).map fun c => f r c := by
    unfold mkImg
    rw [List.getD_eq_getElem?_getD, List.getElem?_map, List.getElem?_range hr]
    simp
  rw [hrow, List.getD_eq_getElem?_getD, List.getElem?_map,
    List.getElem?_range hc]
  simp

/-- The centroid of a non-empty in-bounds cell lies inside the canvas. -/
theorem cellCentroid_bounds (d0 d1 : ℕ) (cell : List (ℕ × ℕ))
    (hne : cell ≠ []) (hb : ∀ p ∈ cell, p.1 < d0 ∧ p.2 < d1) :
    0 ≤ (cellCentroid cell).1 ∧ (cellCentroid cell).1 < (d0 : ℤ) ∧
    0 ≤ (cellCentroid cell).2 ∧ (cellCentroid cell).2 < (d1 : ℤ) := by
  have hb1 : ∀ x ∈ cell.map Prod.fst, x < d0 := by
    intro x hx
    rw [List.mem_map] at hx
    obtain ⟨p, hp, rfl⟩ := hx
    exact (hb p hp).1
  have hb2 : ∀ x ∈ cell.map Prod.snd, x < d1 := by
    intro x hx
    rw [List.mem_map] at hx
    obtain ⟨p, hp, rfl⟩ := hx
    exact (hb p hp).2
  have h1 := floor_mean_bounds (cell.map Prod.fst) d0 (by simpa using hne) hb1
  have h2 := floor_mean_bounds (cell.map Prod.snd) d1 (by simpa using hne) hb2
  have e1 : ((cell.map Prod.fst).map fun x : ℕ => (x : ℚ)) =
      cell.map fun p => (p.1 : ℚ) := by
    rw [List.map_map]
    rfl
  have e2 : ((cell.map Prod.snd).map fun x : ℕ => (x : ℚ)) =
      cell.map fun p => (p.2 : ℚ) := by
    rw [List.map_map]
    rfl
  rw [e1, List.length_map] at h1
  rw [e2, List.length_map] at h2
  exact ⟨h1.1, h1.2, h2.1, h2.2⟩

/-- C2: for non-empty in-bounds cells, every per-cell centroid mask from
`get_targets` holds at least one foreground pixel, for any radius ≥ 0. -/
theorem get_targets_centroid_fg (d0 d1 : ℕ) (cells : List (List (ℕ × ℕ)))
    (cr bt : ℕ)
    (hvalid : ∀ cell ∈ cells, cell ≠ [] ∧ ∀ p ∈ cell, p.1 < d0 ∧ p.2 < d1) :
    ∃ s b c, get_targets d0 d1 cells false cr bt =
        some (MaskOut.stacks s b c) ∧
      ∀ img ∈ c, ∃ r col, (img.getD r []).getD col false = true := by
  have hguard : (cells.all fun cell =>
      !cell.isEmpty && cell.all fun p =>
        decide (p.1 < d0) && decide (p.2 < d1)) = true := by
    rw [List.all_eq_true]
    intro cell hcell
    obtain ⟨hne, hin⟩ := hvalid cell hcell
    rw [Bool.and_eq_true]
    refine ⟨by simp [hne], ?_⟩
    rw [List.all_eq_true]
    intro p hp
    obtain ⟨h1, h2⟩ := hin p hp
    simp [h1, h2]
  refine ⟨cells.map (somaMask d0 d1),
    cells.map (fun c => borderMask d0 d1 c bt),
    cells.map (fun c => centroidMask d0 d1 c cr), ?_, ?_⟩
  · unfold get_targets
    rw [if_pos hguard]
    rfl
  · intro img hmem
    rw [List.mem_map] at hmem
    obtain ⟨cell, hcell, rfl⟩ := hmem
    obtain ⟨hne, hin⟩ := hvalid cell hcell
    obtain ⟨hr0, hrlt, hc0, hclt⟩ := cellCentroid_bounds d0 d1 cell hne hin
    refine ⟨(cellCentroid cell).1.toNat, (cellCentroid cell).2.toNat, ?_⟩
    unfold centroidMask
    rw [mkImg_getD d0 d1 _ _ _ (by omega) (by omega)]
    rw [decide_eq_true_eq]
    rw [Int.toNat_of_nonneg hr0, Int.toNat_of_nonneg hc0]
    simp only [sub_self]
    positivity

/-- C2 witness: the 2×2 folder with a single one-pixel cell. -/
theorem get_targets_centroid_fg_witness :
    (∀ cell ∈ [[((0 : ℕ), (0 : ℕ))]], cell ≠ [] ∧
      ∀ p ∈ cell, p.1 < 2 ∧ p.2 < 2) ∧
    ∃ s b c, get_targets 2 2 [[(0, 0)]] false 3 2 =
        some (MaskOut.stacks s b c) ∧
      ∀ img ∈ c, ∃ r col, (img.getD r []).getD col false = true :=
  ⟨by decide, get_targets_centroid_fg 2 2 [[(0, 0)]] 3 2 (by decide)⟩

/-- A bottleneck module always yields a same-spatial-size tensor with
`output_filters` channels (its residual `Add` never mismatches). -/
theorem rbm_eq (s : Shape) (f b : ℕ) :
    residual_bottleneck_module s f b = some ⟨s.h, s.w, f⟩ := by
  obtain ⟨sh, sw, sc⟩ := s
  unfold residual_bottleneck_module addLayer conv2d_same
  by_cases hc : f ≠ sc
  · simp [hc]
  · push_neg at hc
    subst hc
    simp

/-- C4: all three builders give outputs whose channel count is the
requested `output_channels`: `leap` unconditionally, `hourglass` and
`stacked_hourglass` whenever their graphs assemble. -/
theorem builders_output_channels (img : Shape) (oc f : ℕ) (u : Bool) :
    (leap img oc f).c = oc ∧
    (∀ out, hourglass img oc f u = some out → out.c = oc) ∧
    (∀ outs, stacked_hourglass img oc f u = some outs →
      ∀ s ∈ outs, s.c = oc) := by
  refine ⟨rfl, ?_, ?_⟩
  · intro out hout
    unfold hourglass at hout
    cases hcore : hourglassCore img f u with
    | none => rw [hcore] at hout; simp at hout
    | some x9 =>
        rw [hcore] at hout
        simp at hout
        rw [← hout]
        rfl
  · intro outs houts s hs
    unfold stacked_hourglass at houts
    cases h1 : hourglassCore img f u with
    | none => rw [h1] at houts; simp at houts
    | some x19 =>
        rw [h1] at houts
        simp only [Option.bind_eq_bind, Option.some_bind] at houts
        cases h2 : hourglassCore x19 f u with
        | none => rw [h2] at houts; simp at houts
        | some x29 =>
            rw [h2] at houts
            simp only [Option.bind_eq_bind, Option.some_bind, rbm_eq,
              Option.pure_def, Option.some_inj] at houts
            rw [← houts] at hs
            simp only [List.mem_cons, List.not_mem_nil, or_false] at hs
            rcases hs with rfl | rfl <;> rfl

/-- C4 witness: all three builders at a 16×16 single-channel input,
4 filters, 3 output channels. -/
theorem builders_output_channels_witness :
    (leap ⟨16, 16, 1⟩ 3 4).c = 3 ∧
    (∃ out, hourglass ⟨16, 16, 1⟩ 3 4 false = some out ∧ out.c = 3) ∧
    (∃ outs, stacked_hourglass ⟨16, 16, 1⟩ 3 4 false = some outs ∧
      ∀ s ∈ outs, s.c = 3) := by
  obtain ⟨h1, h2, h3⟩ := builders_output_channels ⟨16, 16, 1⟩ 3 4 false
  have hc : hourglass ⟨16, 16, 1⟩ 3 4 false = some ⟨16, 16, 3⟩ := by decide
  have hs : stacked_hourglass ⟨16, 16, 1⟩ 3 4 false =
      some [⟨16, 16, 3⟩, ⟨16, 16, 3⟩] := by decide
  exact ⟨h1, ⟨_, hc, h2 _ hc⟩, ⟨_, hs, h3 _ hs⟩⟩

/-- On a 16-divisible input the hourglass body assembles and returns the
input spatial size with `filters` channels. -/
theorem hourglassCore_eq (a b c f : ℕ) (u : Bool) :
    hourglassCore ⟨16 * a, 16 * b, c⟩ f u = some ⟨16 * a, 16 * b, f⟩ := by
  have p1 : maxPool2 ⟨16 * a, 16 * b, f⟩ = ⟨8 * a, 8 * b, f⟩ := by
    simp only [maxPool2, Shape.mk.injEq]
    exact ⟨by omega, by omega, trivial⟩
  have p2 : maxPool2 ⟨8 * a, 8 * b, f⟩ = ⟨4 * a, 4 * b, f⟩ := by
    simp only [maxPool2, Shape.mk.injEq]
    exact ⟨by omega, by omega, trivial⟩
  have p3 : maxPool2 ⟨4 * a, 4 * b, f⟩ = ⟨2 * a, 2 * b, f⟩ := by
    simp only [maxPool2, Shape.mk.injEq]
    exact ⟨by omega, by omega, trivial⟩
  have p4 : maxPool2 ⟨2 * a, 2 * b, f⟩ = ⟨a, b, f⟩ := by
    simp only [maxPool2, Shape.mk.injEq]
    exact ⟨by omega, by omega, trivial⟩
  have hup : ∀ m n m2 n2 : ℕ, 2 * m = m2 → 2 * n = n2 →
      (if u then upSampling2 ⟨m, n, f⟩ else conv2dT2 f ⟨m, n, f⟩) =
        ⟨m2, n2, f⟩ := by
    intro m n m2 n2 hm hn
    subst hm
    subst hn
    cases u <;> rfl
  have u1 := hup a b (2 * a) (2 * b) rfl rfl
  have u2 := hup (2 * a) (2 * b) (4 * a) (4 * b) (by omega) (by omega)
  have u3 := hup (4 * a) (4 * b) (8 * a) (8 * b) (by omega) (by omega)
  have u4 := hup (8 * a) (8 * b) (16 * a) (16 * b) (by omega) (by omega)
  have hadd : ∀ s : Shape, addLayer s s = some s := by
    intro s
    simp [addLayer]
  unfold hourglassCore
  simp only [Option.bind_eq_bind, Option.some_bind, rbm_eq, p1, p2, p3, p4,
    u1, u2, u3, u4, hadd]

/-- C5: `stacked_hourglass` yields exactly two outputs whose spatial size
equals the input's whenever height and width are divisible by 16 (four
stride-2 poolings each undone by a stride-2 up-stage). -/
theorem stacked_hourglass_two_outputs (h w c oc f : ℕ) (u : Bool)
    (hh : 16 ∣ h) (hw : 16 ∣ w) :
    ∃ outs, stacked_hourglass ⟨h, w, c⟩ oc f u = some outs ∧
      outs.length = 2 ∧ ∀ s ∈ outs, s.h = h ∧ s.w = w := by
  obtain ⟨a, rfl⟩ := hh
  obtain ⟨b, rfl⟩ := hw
  refine ⟨[⟨16 * a, 16 * b, oc⟩, ⟨16 * a, 16 * b, oc⟩], ?_, rfl, ?_⟩
  · unfold stacked_hourglass
    rw [hourglassCore_eq]
    simp only [Option.bind_eq_bind, Option.some_bind]
    rw [hourglassCore_eq]
    simp only [Option.bind_eq_bind, Option.some_bind, rbm_eq, Option.pure_def]
  · intro s hs
    simp only [List.mem_cons, List.not_mem_nil, or_false] at hs
    rcases hs with rfl | rfl <;> exact ⟨rfl, rfl⟩

/-- C5 witness: a 32×16 single-channel input with 4 filters and 2 output
channels, using upsampling layers. -/
theorem stacked_hourglass_two_outputs_witness :
    ((16 ∣ 32) ∧ (16 ∣ 16)) ∧
    ∃ outs, stacked_hourglass ⟨32, 16, 1⟩ 2 4 true = some outs ∧
      outs.length = 2 ∧ ∀ s ∈ outs, s.h = 32 ∧ s.w = 16 :=
  ⟨⟨by decide, by decide⟩,
   stacked_hourglass_two_outputs 32 16 1 2 4 true (by decide) (by decide)⟩

/-- C6: the post-training cleanup does not guarantee that the kept
checkpoint is the best one.  With validation losses 3 then 2, both epochs
save a checkpoint; `glob('*hdf5')` returns `os.scandir` order, which is
unspecified, and under the listing that yields the epoch-1 file first,
`models_to_delete = glob(...)[:-1]` deletes the best checkpoint (epoch 1,
loss 2) and the file kept is the worse one (epoch 0, loss 3) — contrary to
the claim and to the code's own comment "load best model and delete
others". -/
theorem checkpoint_retention_glob_order_bug :
    savedCheckpoints [3, 2] = [(0, 3), (1, 2)] ∧
    isGlobListing [3, 2] [(1, 2), (0, 3)] ∧
    models_to_delete [(1, 2), (0, 3)] = [(1, 2)] ∧
    remainingCheckpoints [(1, 2), (0, 3)] = [(0, 3)] ∧
    ¬ (((0, 3) : ℕ × ℚ).2 ≤ ((1, 2) : ℕ × ℚ).2) := by
  have hsaved : savedCheckpoints [3, 2] = [(0, 3), (1, 2)] := by
    norm_num [savedCheckpoints, saveLoop, improves]
  refine ⟨hsaved, ?_, rfl, rfl, by norm_num⟩
  unfold isGlobListing
  rw [hsaved]
  exact List.Perm.swap _ _ _

/-- The fit loop never runs more epochs than `cfg.training_epochs`. -/
theorem esRun_le_length (patience : ℕ) :
    ∀ (best : Option ℚ) (wait : ℕ) (losses : List ℚ),
      esRun patience best wait losses ≤ losses.length
  | _, _, [] => le_refl 0
  | best, wait, l :: rest => by
    rw [esRun]
    by_cases himp : improves best l = true
    · rw [if_pos himp]
      have h := esRun_le_length patience (some l) 0 rest
      simp only [List.length_cons]
      omega
    · rw [if_neg himp]
      by_cases hp : patience ≤ wait + 1
      · rw [if_pos hp]
        simp
      · rw [if_neg hp]
        have h := esRun_le_length patience best (wait + 1) rest
        simp only [List.length_cons]
        omega

/-- If after some prefix of epochs the wait counter has reached `patience`,
the run stopped no later than that epoch. -/
theorem esRun_le_of_wait (patience : ℕ) (hp : 1 ≤ patience)
    (losses : List ℚ) : ∀ (best : Option ℚ) (wait j : ℕ),
      wait < patience → j ≤ losses.length →
      patience ≤ ((losses.take j).foldl esStep (best, wait)).2 →
      esRun patience best wait losses ≤ j := by
  induction losses with
  | nil =>
      intro best wait j hw hj hfold
      have hj0 : j = 0 := by simpa using hj
      subst hj0
      simp at hfold
      omega
  | cons l rest ih =>
      intro best wait j hw hj hfold
      cases j with
      | zero =>
          simp at hfold
          omega
      | succ j2 =>
          rw [List.take_succ_cons, List.foldl_cons] at hfold
          rw [esRun]
          by_cases himp : improves best l = true
          · rw [if_pos himp]
            have hstep : esStep (best, wait) l = (some l, 0) := by
              simp [esStep, himp]
            rw [hstep] at hfold
            have h := ih (some l) 0 j2 (by omega) (by simpa using hj) hfold
            omega
          · have hstep : esStep (best, wait) l = (best, wait + 1) := by
              simp [esStep, himp]
            rw [hstep] at hfold
            rw [if_neg himp]
            by_cases hstop : patience ≤ wait + 1
            · rw [if_pos hstop]
              omega
            · rw [if_neg hstop]
              have h := ih best (wait + 1) j2 (by omega) (by simpa using hj) hfold
              omega

/-- C7: the fit loop halts as soon as validation loss has failed to improve
for `patience` consecutive epochs — it never continues past any prefix
whose wait counter reaches `patience` — and never exceeds
`cfg.training_epochs` (the length of the loss list). -/
theorem early_stopping_halts (losses : List ℚ) (patience k : ℕ)
    (hp : 1 ≤ patience) (hk : k ≤ losses.length)
    (hwait : patience ≤ (esState losses k).2) :
    epochsRun losses patience ≤ k ∧
    epochsRun losses patience ≤ losses.length :=
  ⟨esRun_le_of_wait patience hp losses none 0 k (by omega) hk hwait,
   esRun_le_length patience none 0 losses⟩

/-- C7 witness: patience 2 on losses 3, 4, 5, 2, 1 — epochs 2 and 3 fail to
improve, so the run stops at epoch 3 and never reaches the loss-2 epoch. -/
theorem early_stopping_halts_witness :
    (1 ≤ 2 ∧ 3 ≤ ([3, 4, 5, 2, 1] : List ℚ).length ∧
      2 ≤ (esState [3, 4, 5, 2, 1] 3).2) ∧
    (epochsRun [3, 4, 5, 2, 1] 2 ≤ 3 ∧
     epochsRun [3, 4, 5, 2, 1] 2 ≤ ([3, 4, 5, 2, 1] : List ℚ).length) :=
  ⟨⟨by norm_num, by norm_num, by norm_num [esState, esStep, improves]⟩,
   early_stopping_halts [3, 4, 5, 2, 1] 2 3 (by norm_num) (by norm_num)
     (by norm_num [esState, esStep, improves])⟩

/-- Writing one array leaves every other array unchanged. -/
theorem heapGet_heapSet_ne (h : Heap) (i j : ℕ) (v : QStack) (hij : i ≠ j) :
    heapGet (heapSet h i v) j = heapGet h j := by
  unfold heapGet heapSet
  rw [List.getD_eq_getElem?_getD, List.getD_eq_getElem?_getD,
    List.getElem?_set_ne hij]

/-- Allocation leaves every existing array unchanged. -/
theorem heapGet_append_lt (h : Heap) (v : QStack) (r : ℕ) (hr : r < h.length) :
    heapGet (h ++ [v]) r = heapGet h r := by
  unfold heapGet
  rw [List.getD_eq_getElem?_getD, List.getD_eq_getElem?_getD,
    List.getElem?_append_left hr]

/-- C10: `get_correlation_image` never modifies its input array — the
in-place normalization hits only the `imgs.copy()` allocated on entry, so
the caller's array reads back unchanged from the final heap. -/
theorem get_correlation_image_no_mutation (sqrtFn : ℚ → ℚ) (h0 : Heap)
    (r : ℕ) (hr : r < h0.length) :
    heapGet (get_correlation_image sqrtFn h0 r).1 r = heapGet h0 r := by
  unfold get_correlation_image
  simp only [heapAlloc]
  rw [heapGet_heapSet_ne _ _ _ _ (by omega)]
  rw [heapGet_heapSet_ne _ _ _ _ (by omega)]
  exact heapGet_append_lt h0 _ r hr

/-- C10 witness: a heap holding one single-pixel stack. -/
theorem get_correlation_image_no_mutation_witness :
    0 < ([[[[(0 : ℚ)]]]] : Heap).length ∧
    heapGet (get_correlation_image id [[[[(0 : ℚ)]]]] 0).1 0 =
      heapGet [[[[(0 : ℚ)]]]] 0 :=
  ⟨by simp, get_correlation_image_no_mutation id [[[[(0 : ℚ)]]]] 0 (by simp)⟩

end MachineLearning
